import Mathlib

/-!
Shallow embedding of the core of `windows/winobject.py` (PythonForWindows):
handle lifecycle (`AutoHandle`), system enumerators, memory reads
(`read_string` / `read_wstring` / `memory_state` / `query_memory`),
PEB address resolution (`peb_addr`) and the loaded-module walks
(`PEB.modules`, `RemotePEB*.modules`), together with theorems settling
the frozen claims about them.

Python exceptions are modelled by `Except PErr`; kernel (Win32) calls that
the claims count are modelled by traces of `KCall`; unbounded `while` /
`itertools.count` loops are modelled with an explicit fuel argument, where
running out of fuel is a distinguished non-result (`none` / `RdRes.fuelOut`)
meaning "the loop is still running after that many iterations".
-/

namespace WinObject

/-- Kernel calls observable in the claims: handle closing, waiting, and
toolhelp snapshot iteration. -/
inductive KCall
  | closeHandle (h : Nat)
  | waitForSingleObject (h timeout : Nat)
  | createToolhelp32Snapshot (flags snap : Nat)
  | iterFirst
  | iterNext
deriving DecidableEq

/-- Python-level failures raised by the embedded code.  `wouldDeadlock` is the
ValueError raised by `CurrentThread.wait`; `ldrUnavailable` the guarded
ValueError of the remote module walks; `nullPtrAccess` the ValueError ctypes
raises when `.contents` is read on a NULL pointer; `pebUnavailable` the
ValueError of `peb_addr`; `attributeError` the AttributeError from reading an
attribute of `None`; `osError` a failing winproxy thunk. -/
inductive PErr
  | wouldDeadlock
  | ldrUnavailable
  | nullPtrAccess
  | pebUnavailable
  | attributeError
  | osError
deriving DecidableEq

/-- Classes of handle-owning objects in winobject.py.  `currentProcess` and
`currentThread` are the pseudo-handle wrappers whose `__del__` is overridden
with `pass`. -/
inductive HKind
  | winProcess
  | winThread
  | deadThread
  | token
  | currentProcess
  | currentThread
deriving DecidableEq

/-- Whether the class wraps a pseudo-handle (its `__del__` is `pass`). -/
def HKind.isPseudo : HKind → Bool
  | .currentProcess => true
  | .currentThread => true
  | _ => false

/-- One access to the `AutoHandle.handle` property with `raw` as the value
`_get_handle` would return: the first access stores `_handle`, later accesses
return the stored value unchanged. -/
def acquireStep (st : Option Nat) (raw : Nat) : Option Nat :=
  match st with
  | some h => some h
  | none => some raw

/-- Kernel calls made by `__del__`: `AutoHandle.__del__` closes `_handle` when
it exists and is non-zero; `CurrentProcess.__del__` and
`CurrentThread.__del__` are overridden with `pass` and close nothing. -/
def delCalls (k : HKind) (st : Option Nat) : List KCall :=
  match k.isPseudo, st with
  | true, _ => []
  | false, none => []
  | false, some h => if h = 0 then [] else [KCall.closeHandle h]

/-- Kernel close calls over a whole object lifetime: any number of accesses to
the `handle` property (with the raw values the getter would return), then the
single `__del__` the interpreter runs at destruction. -/
def lifetimeCalls (k : HKind) (accesses : List Nat) : List KCall :=
  delCalls k (accesses.foldl acquireStep none)

/-- Number of `CloseHandle(h)` calls in a trace. -/
def closeCount (h : Nat) (tr : List KCall) : Nat :=
  tr.count (KCall.closeHandle h)

/-- CurrentThread.wait body: `raise ValueError("wait() on current thread")`.
It returns no wait code and performs no kernel call. -/
def currentThread_wait (_timeout : Nat) : Except PErr Nat × List KCall :=
  (Except.error PErr.wouldDeadlock, [])

/-- AutoHandle.wait body: `winproxy.WaitForSingleObject(self.handle, timeout)`
with `outcome` as the wait code the kernel returns. -/
def autoHandle_wait (handle timeout outcome : Nat) : Except PErr Nat × List KCall :=
  (Except.ok outcome, [KCall.waitForSingleObject handle timeout])

/-- WinProcess.peb_addr, parametrised by the controller bitness `curBits`, the
target bitness `targetBits`, and the raw PebBaseAddress value the kernel query
produced (`0` is the NULL pointer).  The (32, 64) branch unpacks the value
with `struct.unpack` into an int, the (64, 32) branch reads a ULONGLONG: both
are ints and never `None`.  The remaining branch casts to a ctypes PVOID whose
`.value` is `None` exactly when the pointer is 0.  The final
`if peb_addr is None: raise ValueError` is the `pebUnavailable` failure. -/
def peb_addr (curBits targetBits raw : Nat) : Except PErr Nat :=
  let pa : Option Nat :=
    if curBits = 32 ∧ targetBits = 64 then some raw
    else if curBits = 64 ∧ targetBits = 32 then some raw
    else if raw = 0 then none else some raw
  match pa with
  | none => Except.error PErr.pebUnavailable
  | some v => Except.ok v

/-- Loop of `RemotePEB.modules` (and of `PEB.modules` and the
`RemotePEB64` / `RemotePEB32` variants, which have the same body): from a
`Flink` value, the entry base is `link - 2 * psize`
(`ptr_flink_to_remote_module` / `TO_LDR_ENTRY`); the walk stops when the
entry's `DllBase` is 0, otherwise appends the entry and follows
`InMemoryOrderLinks.Flink`.  `dllBase` and `flink` give the two fields read
from target memory at an entry base.  The fuel models the unbounded `while`:
`none` means the loop is still running after `fuel` iterations. -/
def modulesWalk (dllBase flink : Nat → Nat) (psize link : Nat) : Nat → Option (List Nat)
  | 0 => none
  | fuel + 1 =>
    let base := link - 2 * psize
    if dllBase base = 0 then some []
    else (modulesWalk dllBase flink psize (flink base) fuel).map (base :: ·)

/-- Sequence of `Flink` values the walk follows (entry `k + 1` is read at the
base of entry `k`). -/
def walkChain (flink : Nat → Nat) (psize start : Nat) : Nat → Nat
  | 0 => start
  | k + 1 => flink (walkChain flink psize start k - 2 * psize)

/-- Data of a PEB as the module walks consume it: the raw `Ldr` pointer, the
`InMemoryOrderModuleList.Flink` head read through it, and the per-entry
`DllBase` / `Flink` reads. -/
structure PebView where
  ldr : Nat
  headFlink : Nat
  dllBase : Nat → Nat
  flink : Nat → Nat
  psize : Nat

/-- PEB.modules (the local walk): no test on `Ldr`; it reads
`self.Ldr.contents` directly, and ctypes raises ValueError("NULL pointer
access") when the pointer is NULL. -/
def localModules (p : PebView) (fuel : Nat) : Option (Except PErr (List Nat)) :=
  if p.ldr = 0 then some (Except.error PErr.nullPtrAccess)
  else (modulesWalk p.dllBase p.flink p.psize p.headFlink fuel).map Except.ok

/-- RemotePEB.modules, RemotePEB64.modules and RemotePEB32.modules: all three
start with `if not self.Ldr.value: raise ValueError("PEB->Ldr is NULL: cannot
walk the module list")` before touching the list. -/
def remoteModules (p : PebView) (fuel : Nat) : Option (Except PErr (List Nat)) :=
  if p.ldr = 0 then some (Except.error PErr.ldrUnavailable)
  else (modulesWalk p.dllBase p.flink p.psize p.headFlink fuel).map Except.ok

/-- Concrete malformed loader list: every entry has a non-zero DllBase and the
Flink read at any base is 16, so with `psize = 8` the walk stays on the entry
at base 0 forever. -/
def circPeb : PebView :=
  { ldr := 1, headFlink := 16, dllBase := fun _ => 1, flink := fun _ => 16, psize := 8 }

/-- Concrete PEB whose `Ldr` pointer is NULL. -/
def nullLdrPeb : PebView :=
  { ldr := 0, headFlink := 16, dllBase := fun _ => 1, flink := fun _ => 16, psize := 8 }

/-- Memory region as `query_memory` reports it (the `BaseAddress` and
`RegionSize` fields of MEMORY_BASIC_INFORMATION, which are all the walk
uses). -/
structure Region where
  base : Nat
  size : Nat
deriving DecidableEq

/-- Whether a region covers an address. -/
def covers (r : Region) (addr : Nat) : Bool :=
  decide (r.base ≤ addr) && decide (addr < r.base + r.size)

/-- Process.query_memory, modelled over the target's region list: the OS
returns the region containing `addr`, and raises the Kernel32Error the code
catches when no region covers `addr`. -/
def query_memory (rs : List Region) (addr : Nat) : Option Region :=
  rs.find? (fun r => covers r addr)

/-- Process.memory_state: `addr` starts at 0; each iteration queries, yields
the result, and advances `addr` by the region's `RegionSize`; the loop ends at
the first query failure.  The fuel models the unbounded `while True`. -/
def memory_state (query : Nat → Option Region) : Nat → Nat → List Region
  | 0, _ => []
  | fuel + 1, addr =>
    match query addr with
    | none => []
    | some x => x :: memory_state query fuel (addr + x.size)

/-- Tiling a rs: the regions of `rs` tile the address space contiguously from
address `a`, each with a positive size (the shape VirtualQueryEx reports). -/
def Tiling : Nat → List Region → Prop
  | _, [] => True
  | a, r :: rest => r.base = a ∧ 0 < r.size ∧ Tiling (a + r.size) rest

/-- Concrete two-region address space for the C4 witness. -/
def twoRegions : List Region := [⟨0, 4096⟩, ⟨4096, 8192⟩]

/-- Target address space for string reads: a byte for each mapped address,
`none` where unmapped. -/
def readMem (mem : Nat → Option Nat) : Nat → Nat → Option (List Nat)
  | _, 0 => some []
  | addr, n + 1 =>
    match mem addr, readMem mem (addr + 1) n with
    | some b, some bs => some (b :: bs)
    | _, _ => none

/-- Result of a chunked string read.  `readError` is the propagated exception
of a failed `read_memory`; `fuelOut` is the fuel artifact for the unbounded
`itertools.count()` loop. -/
inductive RdRes
  | ok (bytes : List Nat)
  | readError
  | fuelOut
deriving DecidableEq

/-- Process.read_string: reads 0x100-byte chunks at `addr`, `addr + 0x100`,
…; a chunk containing a zero byte ends the loop, contributing
`x.split("\x00", 1)[0]` (the bytes before the first zero); a chunk without a
zero is appended whole; the joined pieces are returned.  A failing
`read_memory` propagates — there is no retry with a smaller size. -/
def read_string (mem : Nat → Option Nat) : Nat → Nat → RdRes
  | _, 0 => RdRes.fuelOut
  | addr, fuel + 1 =>
    match readMem mem addr 256 with
    | none => RdRes.readError
    | some c =>
      if 0 ∈ c then RdRes.ok (c.takeWhile (fun b => b != 0))
      else
        match read_string mem (addr + 256) fuel with
        | RdRes.ok rest => RdRes.ok (c ++ rest)
        | r => r

/-- Bytes stored from `addr` up to (excluding) the first zero byte, scanning
at most `n` addresses (the reference meaning of "the bytes before the first
zero byte"). -/
def bytesToZero (mem : Nat → Option Nat) : Nat → Nat → List Nat
  | _, 0 => []
  | addr, n + 1 =>
    match mem addr with
    | none => []
    | some b => if b = 0 then [] else b :: bytesToZero mem (addr + 1) n

/-- Concrete memory for the C3 counterexample: the zero-terminated string
"AA" is mapped at 0 (bytes 65, 65, 0) and nothing else is mapped, so the
0x100-byte chunk read fails. -/
def c3mem : Nat → Option Nat := fun a =>
  if a < 2 then some 65 else if a = 2 then some 0 else none

/-- Concrete memory for the C3 witness: "HI" followed by zeroes over a fully
mapped first chunk. -/
def c3okMem : Nat → Option Nat := fun a =>
  if a = 0 then some 72 else if a = 1 then some 73 else
  if a < 256 then some 0 else none

/-- Python's `zip(*[iter(x)] * 2)`: consecutive byte pairs of a chunk (a
trailing odd byte is dropped). -/
def toPairs : List Nat → List (Nat × Nat)
  | a :: b :: rest => (a, b) :: toPairs rest
  | _ => []

/-- Joining a list of two-byte strings back into bytes. -/
def flatPairs : List (Nat × Nat) → List Nat
  | [] => []
  | (a, b) :: rest => a :: b :: flatPairs rest

/-- Process.read_wstring (source): reads 0x100-byte chunks; each chunk is
paired into UTF-16 code units; a chunk containing the "\x00\x00" pair ends
the loop, contributing the two-byte units before that pair
(`utf16_chars[:utf16_chars.index("\x00\x00")]`); a chunk without it is
appended as raw bytes (`res.extend(x)`).  The joined bytes are then decoded
as UTF-16LE (decoding is outside the model: the value returned here is the
byte sequence that gets decoded). -/
def read_wstring (mem : Nat → Option Nat) : Nat → Nat → RdRes
  | _, 0 => RdRes.fuelOut
  | addr, fuel + 1 =>
    match readMem mem addr 256 with
    | none => RdRes.readError
    | some c =>
      if (0, 0) ∈ toPairs c then
        RdRes.ok (flatPairs ((toPairs c).takeWhile (fun p => p != (0, 0))))
      else
        match read_wstring mem (addr + 256) fuel with
        | RdRes.ok rest => RdRes.ok (c ++ rest)
        | r => r

/-- Reading `n` UTF-16LE pairs starting at `addr`. -/
def readPairs (mem : Nat → Option Nat) : Nat → Nat → Option (List (Nat × Nat))
  | _, 0 => some []
  | addr, n + 1 =>
    match mem addr, mem (addr + 1), readPairs mem (addr + 2) n with
    | some a, some b, some ps => some ((a, b) :: ps)
    | _, _, _ => none

/-- Reference read_wstring following the spec's words for claim C8: it chunks
consistently in UTF-16LE pairs — reads each 0x100-byte chunk as 128 pairs,
terminates at the first zero pair, and accumulates pairs (flattened) on
non-terminating chunks. -/
def read_wstring_pairs (mem : Nat → Option Nat) : Nat → Nat → RdRes
  | _, 0 => RdRes.fuelOut
  | addr, fuel + 1 =>
    match readPairs mem addr 128 with
    | none => RdRes.readError
    | some ps =>
      if (0, 0) ∈ ps then
        RdRes.ok (flatPairs (ps.takeWhile (fun p => p != (0, 0))))
      else
        match read_wstring_pairs mem (addr + 256) fuel with
        | RdRes.ok rest => RdRes.ok (flatPairs ps ++ rest)
        | r => r

/-- Bytes stored from `addr` up to (excluding) the first pair-aligned zero
UTF-16 pair, scanning at most `n` pairs. -/
def wbytesToZero (mem : Nat → Option Nat) : Nat → Nat → List Nat
  | _, 0 => []
  | addr, n + 1 =>
    match mem addr, mem (addr + 1) with
    | some a, some b =>
      if a = 0 ∧ b = 0 then [] else a :: b :: wbytesToZero mem (addr + 2) n
    | _, _ => []

/-- Concrete memory for the C8 witness: the UTF-16LE string "h" followed by a
zero pair over a fully mapped first chunk. -/
def c8okMem : Nat → Option Nat := fun a =>
  if a = 0 then some 104 else if a < 256 then some 0 else none

/-- Iteration tail of the toolhelp enumerators: one successful
Process32Next/Thread32Next per remaining entry (the kernel overwrites the
single caller buffer, whose value is captured by the per-entry copy), then
the failing Next that ends the loop. -/
def toolhelpIter : List Nat → List Nat × List KCall
  | [] => ([], [KCall.iterNext])
  | e :: es =>
    let r := toolhelpIter es
    (e :: r.1, KCall.iterNext :: r.2)

/-- System.enumerate_processes: creates a TH32CS_SNAPPROCESS (flag 2)
snapshot, calls Process32First into the entry buffer (winproxy raises when it
fails, modelled by the empty-entry-list error), appends
`utils.swallow_ctypes_copy(process_entry)` — a copy of the buffer's current
value — after First and after each successful Next, and returns at the first
failing Next.  No CloseHandle is ever issued on the snapshot handle. -/
def enumerate_processes (snap : Nat) (entries : List Nat) :
    Except PErr (List Nat × List KCall) :=
  match entries with
  | [] => Except.error PErr.osError
  | e :: es =>
    let r := toolhelpIter es
    Except.ok (e :: r.1,
      KCall.createToolhelp32Snapshot 2 snap :: KCall.iterFirst :: r.2)

/-- System.enumerate_threads: same shape as enumerate_processes with a
TH32CS_SNAPTHREAD (flag 4) snapshot, Thread32First/Next and
`copy.copy(thread_entry)` as the per-entry copy; no CloseHandle either. -/
def enumerate_threads (snap : Nat) (entries : List Nat) :
    Except PErr (List Nat × List KCall) :=
  match entries with
  | [] => Except.error PErr.osError
  | e :: es =>
    let r := toolhelpIter es
    Except.ok (e :: r.1,
      KCall.createToolhelp32Snapshot 4 snap :: KCall.iterFirst :: r.2)

/-- Whether a kernel call is a CloseHandle. -/
def isClose : KCall → Bool
  | KCall.closeHandle _ => true
  | _ => false

/-- Kernel-call trace of an enumerator run, as it appears in the results
above. -/
def enumTrace (flag snap : Nat) (entries : List Nat) : List KCall :=
  KCall.createToolhelp32Snapshot flag snap :: KCall.iterFirst ::
    (toolhelpIter (entries.drop 1)).2

/-- Process as `WinThread.owner` consumes it: its pid (matched against
`th32OwnerProcessID`) and its bitness (read by context / set_context /
start_address). -/
structure ProcM where
  pid : Nat
  bitness : Nat
deriving DecidableEq

/-- Body of `WinThread.owner`: the first process of the current enumeration
whose pid equals `th32OwnerProcessID`, or None when the lookup raises
IndexError. -/
def resolveOwner (procs : List ProcM) (opid : Nat) : Option ProcM :=
  procs.find? (fun p => p.pid == opid)

/-- One call of the `utils.fixedpropety`-decorated `owner` property
(pythonutils.py 51-60): `prop` first tries `getattr(self, "_owner")`; on
AttributeError it evaluates the body — which returns None on IndexError
instead of raising — stores the result with `setattr` (None included), and
returns it.  A filled cache is returned as is. -/
def ownerProp (cache : Option (Option ProcM)) (procs : List ProcM)
    (opid : Nat) : Option ProcM × Option (Option ProcM) :=
  match cache with
  | some v => (v, some v)
  | none => (resolveOwner procs opid, some (resolveOwner procs opid))

/-- Reading `self.owner.bitness`: an AttributeError when the owner is None. -/
def ownerBitness (o : Option ProcM) : Except PErr Nat :=
  match o with
  | none => Except.error PErr.attributeError
  | some p => Except.ok p.bitness

/-- Which context structure / kernel path `WinThread.context` takes. -/
inductive CtxKind
  | wow64
  | gate64
  | ctx32
  | ctx64
deriving DecidableEq

/-- WinThread.context: branches on `self.owner.bitness` (evaluated first in
every branch condition) and the current process bitness. -/
def thread_context (o : Option ProcM) (curBits : Nat) : Except PErr CtxKind :=
  match ownerBitness o with
  | Except.error e => Except.error e
  | Except.ok ob =>
    if ob = 32 ∧ curBits = 64 then Except.ok CtxKind.wow64
    else if ob = 64 ∧ curBits = 32 then Except.ok CtxKind.gate64
    else if ob = 32 then Except.ok CtxKind.ctx32
    else Except.ok CtxKind.ctx64

/-- Which kernel path `WinThread.set_context` takes. -/
inductive SetCtxPath
  | direct
  | wow64set
  | gate64set
deriving DecidableEq

/-- WinThread.set_context: compares `self.owner.bitness` with the current
process bitness to pick the thunk. -/
def thread_set_context (o : Option ProcM) (curBits : Nat) :
    Except PErr SetCtxPath :=
  match ownerBitness o with
  | Except.error e => Except.error e
  | Except.ok ob =>
    if ob = curBits then Except.ok SetCtxPath.direct
    else if curBits = 64 ∧ ob = 32 then Except.ok SetCtxPath.wow64set
    else Except.ok SetCtxPath.gate64set

/-- Which query `WinThread.start_address` issues (the heaven's-gate variant,
or NtQueryInformationThread with the result width). -/
inductive StartPath
  | gateQuery
  | query (width : Nat)
deriving DecidableEq

/-- WinThread.start_address: when the current process is 32-bit the first
condition reads `self.owner.bitness`; when it is 64-bit the `and`
short-circuits, and `self.owner.bitness` is read in the
`max(self.owner.bitness, ...)` result-size computation instead. -/
def thread_start_address (o : Option ProcM) (curBits : Nat) :
    Except PErr StartPath :=
  if curBits = 32 then
    match ownerBitness o with
    | Except.error e => Except.error e
    | Except.ok ob =>
      if ob = 64 then Except.ok StartPath.gateQuery
      else Except.ok (StartPath.query (max ob curBits))
  else
    match ownerBitness o with
    | Except.error e => Except.error e
    | Except.ok ob => Except.ok (StartPath.query (max ob curBits))

end WinObject

namespace WinObject

theorem foldl_acquireStep_some (accesses : List Nat) (h : Nat) :
    accesses.foldl acquireStep (some h) = some h := by
  induction accesses with
  | nil => rfl
  | cons a as ih => simpa [acquireStep] using ih

theorem foldl_acquireStep_head (accesses : List Nat) :
    accesses.foldl acquireStep none = accesses.head? := by
  cases accesses with
  | nil => rfl
  | cons a as => simpa [acquireStep] using foldl_acquireStep_some as a

/-- Claim C1: for every handle-owning object (WinProcess, WinThread,
DeadThread, Token) the kernel close function is invoked on its stored handle
exactly once over the object's lifetime — at destruction, when a handle was
acquired (the first `handle` access) and is non-zero — and for the
pseudo-handle objects CurrentProcess and CurrentThread it is invoked zero
times, whatever the access sequence was. -/
theorem handle_closed_exactly_once (k : HKind) (accesses : List Nat) :
    lifetimeCalls k accesses =
      (if k.isPseudo then []
       else match accesses.head? with
            | none => []
            | some h => if h = 0 then [] else [KCall.closeHandle h]) := by
  unfold lifetimeCalls
  rw [foldl_acquireStep_head]
  cases k <;> cases accesses <;> simp [delCalls, HKind.isPseudo]

/-- Claim C9: for every timeout argument, `CurrentThread.wait` fails with the
would-deadlock ValueError and its kernel-call trace is empty — it never
invokes the wait primitive on the handle (contrast `autoHandle_wait`, whose
trace contains the WaitForSingleObject call). -/
theorem currentThread_wait_deadlocks (timeout : Nat) :
    currentThread_wait timeout = (Except.error PErr.wouldDeadlock, []) ∧
      (autoHandle_wait 5 timeout 0).2 ≠ [] := by
  exact ⟨rfl, by simp [autoHandle_wait]⟩

/-- Counterexample to claim C6 as stated: on the controller-64 / target-32
path, a NULL PebBaseAddress (raw value 0) does not fail with PebUnavailable —
`peb_addr` returns the address 0 (the ULONGLONG value is the int 0, which is
not Python's None). -/
theorem peb_addr_null_returned_cex : peb_addr 64 32 0 = Except.ok 0 := rfl

/-- Claim C6 (amended): a NULL PebBaseAddress makes `peb_addr` fail with
PebUnavailable only on the same-bitness branches; on both cross-bitness
branches (64→32 and 32→64) the queried value is unpacked as an integer, so a
NULL pointer is returned as address 0 instead of failing. -/
theorem peb_addr_null_cases :
    peb_addr 32 32 0 = Except.error PErr.pebUnavailable ∧
      peb_addr 64 64 0 = Except.error PErr.pebUnavailable ∧
      peb_addr 64 32 0 = Except.ok 0 ∧
      peb_addr 32 64 0 = Except.ok 0 := by
  refine ⟨rfl, rfl, rfl, rfl⟩

theorem modulesWalk_circ (fuel : Nat) :
    modulesWalk circPeb.dllBase circPeb.flink circPeb.psize circPeb.headFlink fuel = none := by
  induction fuel with
  | zero => rfl
  | succ n ih => simpa [modulesWalk, circPeb] using ih

/-- Claim C2: the module walk evaluated at the failing input.  On the
concrete malformed (circular, never reaching a zero DllBase) list `circPeb`,
the walk is still running after 4097 iterations — it neither produced a
module list nor failed with LoaderListCorrupt at the claimed 4096-iteration
bound; the code has no bound and no such error, contradicting the spec's
stated resilience requirement. -/
theorem modules_walk_unbounded_cex :
    modulesWalk circPeb.dllBase circPeb.flink circPeb.psize circPeb.headFlink 4097 = none :=
  modulesWalk_circ 4097

theorem walkChain_shift (flink : Nat → Nat) (psize start k : Nat) :
    walkChain flink psize (flink (start - 2 * psize)) k =
      walkChain flink psize start (k + 1) := by
  induction k with
  | zero => rfl
  | succ n ih => simp [walkChain, ih]

/-- Strengthening of the C2 evidence: the divergence is real, not a fuel
artifact.  The walk terminates only when an entry with `DllBase == 0` is
reached, so on any list whose Flink chain never reaches such an entry the
loop runs forever — after any number of iterations it is still running. -/
theorem modules_walk_diverges_on_malformed (dllBase flink : Nat → Nat)
    (psize start : Nat)
    (h : ∀ k, dllBase (walkChain flink psize start k - 2 * psize) ≠ 0) :
    ∀ fuel, modulesWalk dllBase flink psize start fuel = none := by
  intro fuel
  induction fuel generalizing start with
  | zero => rfl
  | succ n ih =>
    have h0 : dllBase (start - 2 * psize) ≠ 0 := h 0
    have hrec : modulesWalk dllBase flink psize (flink (start - 2 * psize)) n = none := by
      refine ih (flink (start - 2 * psize)) ?_
      intro k
      rw [walkChain_shift]
      exact h (k + 1)
    simp [modulesWalk, h0, hrec]

/-- Instance of the divergence theorem at the concrete circular list. -/
theorem modules_walk_diverges_witness :
    modulesWalk (fun _ => 1) (fun _ => 16) 8 16 123 = none :=
  modules_walk_diverges_on_malformed (fun _ => 1) (fun _ => 16) 8 16
    (fun _ => Nat.one_ne_zero) 123

/-- Counterexample to claim C7 as stated: the local walk `PEB.modules` on a
PEB with a NULL `Ldr` does not fail with the guarded LdrUnavailable error —
it dereferences the pointer and dies on the ctypes NULL-pointer access. -/
theorem local_modules_null_ldr_cex :
    localModules nullLdrPeb 5 = some (Except.error PErr.nullPtrAccess) ∧
      localModules nullLdrPeb 5 ≠ some (Except.error PErr.ldrUnavailable) := by
  refine ⟨rfl, ?_⟩
  intro h
  simp [localModules, nullLdrPeb] at h

/-- Claim C7 (amended): on a PEB whose `Ldr` pointer is NULL, the three remote
walks (RemotePEB, RemotePEB64, RemotePEB32 — all with the same guarded body,
embedded as `remoteModules`) fail with LdrUnavailable before dereferencing,
while the local walk `PEB.modules` has no guard and fails by dereferencing the
NULL pointer. -/
theorem modules_null_ldr_guard (p : PebView) (fuel : Nat) (h : p.ldr = 0) :
    remoteModules p fuel = some (Except.error PErr.ldrUnavailable) ∧
      localModules p fuel = some (Except.error PErr.nullPtrAccess) := by
  simp [remoteModules, localModules, h]

/-- Witness for the amended claim C7. -/
theorem modules_null_ldr_guard_witness :
    remoteModules nullLdrPeb 3 = some (Except.error PErr.ldrUnavailable) ∧
      localModules nullLdrPeb 3 = some (Except.error PErr.nullPtrAccess) :=
  modules_null_ldr_guard nullLdrPeb 3 rfl

theorem query_memory_cons_head (r : Region) (rest : List Region) (a : Nat)
    (hb : r.base = a) (hs : 0 < r.size) :
    query_memory (r :: rest) a = some r := by
  have hc : covers r a = true := by
    simp [covers, hb]
    omega
  simp [query_memory, List.find?_cons, hc]

theorem query_memory_cons_skip (r : Region) (rest : List Region) (addr : Nat)
    (h : r.base + r.size ≤ addr) :
    query_memory (r :: rest) addr = query_memory rest addr := by
  have hc : covers r addr = false := by
    simp [covers]
    omega
  simp [query_memory, List.find?_cons, hc]

theorem memory_state_congr (q₁ q₂ : Nat → Option Region) (m : Nat)
    (hq : ∀ x, m ≤ x → q₁ x = q₂ x) :
    ∀ fuel a, m ≤ a → memory_state q₁ fuel a = memory_state q₂ fuel a := by
  intro fuel
  induction fuel with
  | zero => intro a _; rfl
  | succ n ih =>
    intro a ha
    have h1 : q₁ a = q₂ a := hq a ha
    cases hx : q₂ a with
    | none => simp [memory_state, h1, hx]
    | some x =>
      simp only [memory_state, h1, hx]
      rw [ih (a + x.size) (Nat.le_trans ha (Nat.le_add_right a x.size))]

theorem memory_state_tiling (rs : List Region) :
    ∀ a fuel, Tiling a rs → rs.length ≤ fuel →
      memory_state (query_memory rs) fuel a = rs := by
  induction rs with
  | nil =>
    intro a fuel _ _
    cases fuel with
    | zero => rfl
    | succ n => simp [memory_state, query_memory]
  | cons r rest ih =>
    intro a fuel ht hf
    obtain ⟨hb, hs, htrest⟩ := ht
    cases fuel with
    | zero => simp at hf
    | succ n =>
      have hhead := query_memory_cons_head r rest a hb hs
      have hskip : ∀ x, r.base + r.size ≤ x →
          query_memory (r :: rest) x = query_memory rest x :=
        fun x hx => query_memory_cons_skip r rest x hx
      have hcongr := memory_state_congr (query_memory (r :: rest))
        (query_memory rest) (r.base + r.size) hskip n (a + r.size)
        (by omega)
      simp only [memory_state, hhead]
      rw [hcongr, ih (a + r.size) n htrest (by simpa using hf)]

/-- Claim C4: the memory-region enumeration starts at address 0, advances by
exactly each yielded region's size, and ends exactly at the first
`query_memory` failure; `memory_state` is a pure function of the query (so two
runs over an unchanged address space give the same sequence), and over an
address space whose regions tile contiguously from 0 it yields precisely the
region list — each region exactly once. -/
theorem memory_state_enumerates (rs : List Region) (fuel : Nat)
    (ht : Tiling 0 rs) (hf : rs.length ≤ fuel) :
    memory_state (query_memory rs) fuel 0 = rs :=
  memory_state_tiling rs 0 fuel ht hf

/-- Witness for claim C4, on a concrete two-region address space. -/
theorem memory_state_enumerates_witness :
    memory_state (query_memory twoRegions) 2 0 = twoRegions :=
  memory_state_enumerates twoRegions 2
    (by refine ⟨rfl, by norm_num, by norm_num [twoRegions], by norm_num, trivial⟩)
    (by norm_num [twoRegions])

theorem readMem_some_of_mapped (mem : Nat → Option Nat) :
    ∀ n addr, (∀ i, i < n → (mem (addr + i)).isSome) →
      ∃ c, readMem mem addr n = some c := by
  intro n
  induction n with
  | zero => intro addr _; exact ⟨[], rfl⟩
  | succ m ih =>
    intro addr h
    have h0 : (mem addr).isSome := by simpa using h 0 (by omega)
    obtain ⟨b, hb⟩ := Option.isSome_iff_exists.mp h0
    obtain ⟨bs, hbs⟩ := ih (addr + 1) (by
      intro i hi
      have harith : addr + 1 + i = addr + (i + 1) := by omega
      rw [harith]
      exact h (i + 1) (by omega))
    exact ⟨b :: bs, by simp [readMem, hb, hbs]⟩

theorem zero_in_chunk (mem : Nat → Option Nat) :
    ∀ n addr c, readMem mem addr n = some c →
      ∀ j, j < n → mem (addr + j) = some 0 → 0 ∈ c := by
  intro n
  induction n with
  | zero => intro addr c _ j hj; omega
  | succ m ih =>
    intro addr c heq j hj hz
    simp only [readMem] at heq
    cases hb : mem addr with
    | none => rw [hb] at heq; simp at heq
    | some b =>
      cases hbs : readMem mem (addr + 1) m with
      | none => rw [hb, hbs] at heq; simp at heq
      | some bs =>
        rw [hb, hbs] at heq
        simp only [Option.some.injEq] at heq
        subst heq
        cases j with
        | zero =>
          rw [Nat.add_zero] at hz
          rw [hz] at hb
          simp only [Option.some.injEq] at hb
          simp [hb]
        | succ i =>
          have harith : addr + (i + 1) = addr + 1 + i := by omega
          rw [harith] at hz
          exact List.mem_cons_of_mem b (ih (addr + 1) bs hbs i (by omega) hz)

theorem bytesToZero_chunk (mem : Nat → Option Nat) :
    ∀ n addr c, readMem mem addr n = some c → ∀ m,
      bytesToZero mem addr (n + m) =
        (if 0 ∈ c then c.takeWhile (fun b => b != 0)
         else c ++ bytesToZero mem (addr + n) m) := by
  intro n
  induction n with
  | zero =>
    intro addr c heq m
    simp only [readMem] at heq
    simp only [Option.some.injEq] at heq
    subst heq
    simp
  | succ k ih =>
    intro addr c heq m
    simp only [readMem] at heq
    cases hb : mem addr with
    | none => rw [hb] at heq; simp at heq
    | some b =>
      cases hbs : readMem mem (addr + 1) k with
      | none => rw [hb, hbs] at heq; simp at heq
      | some bs =>
        rw [hb, hbs] at heq
        simp only [Option.some.injEq] at heq
        subst heq
        have harith : k + 1 + m = (k + m) + 1 := by omega
        rw [harith]
        by_cases hb0 : b = 0
        · subst hb0
          simp [bytesToZero, hb]
        · have hrec := ih (addr + 1) bs hbs m
          have hbne : (b != 0) = true := by simp [hb0]
          by_cases hmem : 0 ∈ bs
          · simp [bytesToZero, hb, hb0, hrec, hmem, List.takeWhile_cons, hbne]
          · have harith2 : addr + 1 + k = addr + (k + 1) := by omega
            simp [bytesToZero, hb, hb0, hrec, hmem, harith2, Ne.symm hb0]

/-- Claim C3 (amended): when every 0x100-byte chunk up to and including the
one containing the first zero byte is fully mapped, `read_string` returns
exactly the bytes before the first zero; when a chunk read fails (the string
straddles into unmapped memory within the chunk) the read error propagates —
the code does not re-issue smaller reads at the tail. -/
theorem read_string_reads_to_zero (mem : Nat → Option Nat) :
    ∀ fuel addr k, k < fuel →
      (∀ i, i < 256 * (k + 1) → (mem (addr + i)).isSome) →
      (∃ j, 256 * k ≤ j ∧ j < 256 * (k + 1) ∧ mem (addr + j) = some 0) →
      read_string mem addr fuel = RdRes.ok (bytesToZero mem addr (256 * fuel)) := by
  intro fuel
  induction fuel with
  | zero => intro addr k hk _ _; omega
  | succ n ih =>
    intro addr k hk hm hz
    have hm256 : ∀ i, i < 256 → (mem (addr + i)).isSome := by
      intro i hi
      exact hm i (by nlinarith)
    obtain ⟨c, hc⟩ := readMem_some_of_mapped mem 256 addr hm256
    have harith : 256 * (n + 1) = 256 + 256 * n := by ring
    have hbtz := bytesToZero_chunk mem 256 addr c hc (256 * n)
    by_cases h0 : 0 ∈ c
    · simp only [read_string, hc, h0, if_pos]
      rw [harith, hbtz, if_pos h0]
    · have hk0 : k ≠ 0 := by
        intro hke
        subst hke
        obtain ⟨j, _, hj2, hj3⟩ := hz
        exact h0 (zero_in_chunk mem 256 addr c hc j (by omega) hj3)
      obtain ⟨k1, rfl⟩ : ∃ k1, k = k1 + 1 := ⟨k - 1, by omega⟩
      have hm2 : ∀ i, i < 256 * (k1 + 1) → ((mem (addr + 256 + i)).isSome) := by
        intro i hi
        have harith2 : addr + 256 + i = addr + (256 + i) := by omega
        rw [harith2]
        exact hm (256 + i) (by nlinarith)
      have hz2 : ∃ j, 256 * k1 ≤ j ∧ j < 256 * (k1 + 1) ∧
          mem (addr + 256 + j) = some 0 := by
        obtain ⟨j, hj1, hj2, hj3⟩ := hz
        refine ⟨j - 256, by omega, by omega, ?_⟩
        have harith2 : addr + 256 + (j - 256) = addr + j := by omega
        rw [harith2]
        exact hj3
      have hrec := ih (addr + 256) k1 (by omega) hm2 hz2
      simp only [read_string, hc]
      rw [if_neg h0, hrec, harith, hbtz, if_neg h0]

/-- Counterexample to claim C3 as stated: at address 0 of `c3mem` a
zero-terminated ASCII string (65, 65, 0) is mapped, yet `read_string` fails
with the propagated read error — the 0x100-byte chunk read crosses into
unmapped memory and no smaller read is re-issued — instead of returning the
two bytes before the zero. -/
theorem read_string_fails_on_tail_cex :
    read_string c3mem 0 4 = RdRes.readError ∧
      c3mem 2 = some 0 ∧ bytesToZero c3mem 0 3 = [65, 65] := by
  refine ⟨by decide, by decide, by decide⟩

set_option maxRecDepth 8000 in
/-- Witness for the amended claim C3, on a fully mapped first chunk holding
"HI" then a zero. -/
theorem read_string_reads_to_zero_witness :
    read_string c3okMem 0 1 = RdRes.ok [72, 73] :=
  (read_string_reads_to_zero c3okMem 1 0 0 (by decide) (by decide)
    ⟨2, by decide, by decide, by decide⟩).trans (by decide)

theorem toolhelpIter_spec (es : List Nat) :
    (toolhelpIter es).1 = es ∧ (toolhelpIter es).2.countP isClose = 0 := by
  induction es with
  | nil => exact ⟨rfl, by decide⟩
  | cons e es ih =>
    refine ⟨by simp [toolhelpIter, ih.1], ?_⟩
    simp [toolhelpIter, List.countP_cons, ih.2, isClose]

/-- Counterexample to claim C5 as stated: a concrete enumerate_processes run
(snapshot handle 42, two entries).  The complete kernel-call trace contains
no CloseHandle at all — the snapshot handle is not released before the
function returns. -/
theorem enumerate_snapshot_not_closed_cex :
    enumerate_processes 42 [7, 8] =
      Except.ok ([7, 8],
        [KCall.createToolhelp32Snapshot 2 42, KCall.iterFirst,
         KCall.iterNext, KCall.iterNext]) ∧
      [KCall.createToolhelp32Snapshot 2 42, KCall.iterFirst,
       KCall.iterNext, KCall.iterNext].countP isClose = 0 := by
  exact ⟨rfl, by decide⟩

/-- Claim C5 (amended): each entry returned by enumerate_processes and
enumerate_threads is an owned copy — the result is exactly the kernel's entry
sequence, unaffected by the buffer being overwritten on later iterations —
but the toolhelp snapshot handle is not released before the function returns:
the trace of either call contains no CloseHandle. -/
theorem enumerate_owned_copies_snapshot_leaked (snap : Nat)
    (entries : List Nat) (hne : entries ≠ []) :
    enumerate_processes snap entries =
        Except.ok (entries, enumTrace 2 snap entries) ∧
      enumerate_threads snap entries =
        Except.ok (entries, enumTrace 4 snap entries) ∧
      (enumTrace 2 snap entries).countP isClose = 0 ∧
      (enumTrace 4 snap entries).countP isClose = 0 := by
  cases entries with
  | nil => exact absurd rfl hne
  | cons e es =>
    refine ⟨?_, ?_, ?_, ?_⟩ <;>
      simp [enumerate_processes, enumerate_threads, enumTrace,
        (toolhelpIter_spec es).1, (toolhelpIter_spec es).2,
        List.countP_cons, isClose]

/-- Witness for the amended claim C5. -/
theorem enumerate_owned_copies_snapshot_leaked_witness :
    enumerate_processes 9 [1, 2] = Except.ok ([1, 2], enumTrace 2 9 [1, 2]) ∧
      enumerate_threads 9 [1, 2] = Except.ok ([1, 2], enumTrace 4 9 [1, 2]) ∧
      (enumTrace 2 9 [1, 2]).countP isClose = 0 ∧
      (enumTrace 4 9 [1, 2]).countP isClose = 0 :=
  enumerate_owned_copies_snapshot_leaked 9 [1, 2] (by simp)

/-- Claim C10: when no process of the current enumeration has the thread's
`th32OwnerProcessID`, the first `owner` call returns None and caches None
(`utils.fixedpropety` setattrs whatever the body returned, and the body
returns None on IndexError), a second call returns the cached None, and
`context`, `set_context` and `start_address` on such a thread all fail with
the AttributeError from reading the bitness of the None owner, for every
current-process bitness. -/
theorem dead_owner_cached_none_ops_fail (procs : List ProcM)
    (opid curBits : Nat) (h : ∀ p ∈ procs, p.pid ≠ opid) :
    ownerProp none procs opid = (none, some none) ∧
      ownerProp (some none) procs opid = (none, some none) ∧
      thread_context none curBits = Except.error PErr.attributeError ∧
      thread_set_context none curBits = Except.error PErr.attributeError ∧
      thread_start_address none curBits = Except.error PErr.attributeError := by
  have hnone : resolveOwner procs opid = none := by
    rw [resolveOwner, List.find?_eq_none]
    intro p hp
    simpa using h p hp
  refine ⟨by simp [ownerProp, hnone], rfl, rfl, rfl, ?_⟩
  unfold thread_start_address
  split <;> rfl

theorem readMem_length (mem : Nat → Option Nat) :
    ∀ n addr c, readMem mem addr n = some c → c.length = n := by
  intro n
  induction n with
  | zero =>
    intro addr c heq
    simp only [readMem, Option.some.injEq] at heq
    subst heq
    rfl
  | succ m ih =>
    intro addr c heq
    simp only [readMem] at heq
    cases hb : mem addr with
    | none => rw [hb] at heq; simp at heq
    | some b =>
      cases hbs : readMem mem (addr + 1) m with
      | none => rw [hb, hbs] at heq; simp at heq
      | some bs =>
        rw [hb, hbs] at heq
        simp only [Option.some.injEq] at heq
        subst heq
        simp [ih (addr + 1) bs hbs]

theorem readPairs_eq_readMem (mem : Nat → Option Nat) :
    ∀ n addr, readPairs mem addr n = Option.map toPairs (readMem mem addr (2 * n)) := by
  intro n
  induction n with
  | zero => intro addr; rfl
  | succ m ih =>
    intro addr
    have h2 : 2 * (m + 1) = 2 * m + 1 + 1 := by ring
    rw [h2]
    have h3 : addr + 1 + 1 = addr + 2 := by omega
    simp only [readPairs, readMem, h3]
    rw [ih (addr + 2)]
    cases ha : mem addr with
    | none => simp [ha]
    | some a =>
      cases hb : mem (addr + 1) with
      | none => simp [ha, hb]
      | some b =>
        cases hps : readMem mem (addr + 2) (2 * m) with
        | none => simp [ha, hb, hps]
        | some bs => simp [ha, hb, hps, toPairs]

theorem flatPairs_toPairs : ∀ n (c : List Nat), c.length = 2 * n →
    flatPairs (toPairs c) = c := by
  intro n
  induction n with
  | zero =>
    intro c hc
    cases c with
    | nil => rfl
    | cons a t => simp only [List.length_cons] at hc; omega
  | succ m ih =>
    intro c hc
    cases c with
    | nil => simp only [List.length_nil] at hc; omega
    | cons a t =>
      cases t with
      | nil => simp only [List.length_cons, List.length_nil] at hc; omega
      | cons b rest =>
        have hr : rest.length = 2 * m := by
          simp only [List.length_cons] at hc; omega
        simp [toPairs, flatPairs, ih rest hr]

theorem zero_pair_in_chunk (mem : Nat → Option Nat) :
    ∀ n addr c, readMem mem addr (2 * n) = some c →
      ∀ j, j < n → mem (addr + 2 * j) = some 0 →
        mem (addr + 2 * j + 1) = some 0 → (0, 0) ∈ toPairs c := by
  intro n
  induction n with
  | zero => intro addr c _ j hj; omega
  | succ m ih =>
    intro addr c heq j hj hz1 hz2
    have h2 : 2 * (m + 1) = 2 * m + 1 + 1 := by ring
    rw [h2] at heq
    have h3 : addr + 1 + 1 = addr + 2 := by omega
    simp only [readMem, h3] at heq
    cases ha : mem addr with
    | none => rw [ha] at heq; simp at heq
    | some a =>
      cases hb : mem (addr + 1) with
      | none => rw [ha, hb] at heq; simp at heq
      | some b =>
        cases hps : readMem mem (addr + 2) (2 * m) with
        | none => rw [ha, hb, hps] at heq; simp at heq
        | some bs =>
          rw [ha, hb, hps] at heq
          simp only [Option.some.injEq] at heq
          subst heq
          cases j with
          | zero =>
            simp only [Nat.mul_zero, Nat.add_zero] at hz1 hz2
            rw [ha] at hz1
            rw [hb] at hz2
            simp only [Option.some.injEq] at hz1 hz2
            simp [toPairs, hz1, hz2]
          | succ i =>
            have harith : addr + 2 * (i + 1) = addr + 2 + 2 * i := by ring
            rw [harith] at hz1 hz2
            exact List.mem_cons_of_mem _
              (ih (addr + 2) bs hps i (by omega) hz1 hz2)

theorem wbytesToZero_chunk (mem : Nat → Option Nat) :
    ∀ n addr c, readMem mem addr (2 * n) = some c → ∀ m,
      wbytesToZero mem addr (n + m) =
        (if (0, 0) ∈ toPairs c then
           flatPairs ((toPairs c).takeWhile (fun p => p != (0, 0)))
         else c ++ wbytesToZero mem (addr + 2 * n) m) := by
  intro n
  induction n with
  | zero =>
    intro addr c heq m
    simp only [Nat.mul_zero] at heq ⊢
    simp only [readMem, Option.some.injEq] at heq
    subst heq
    simp [toPairs]
  | succ m' ih =>
    intro addr c heq m
    have h2 : 2 * (m' + 1) = 2 * m' + 1 + 1 := by ring
    rw [h2] at heq
    have h3 : addr + 1 + 1 = addr + 2 := by omega
    simp only [readMem, h3] at heq
    cases ha : mem addr with
    | none => rw [ha] at heq; simp at heq
    | some a =>
      cases hb : mem (addr + 1) with
      | none => rw [ha, hb] at heq; simp at heq
      | some b =>
        cases hps : readMem mem (addr + 2) (2 * m') with
        | none => rw [ha, hb, hps] at heq; simp at heq
        | some bs =>
          rw [ha, hb, hps] at heq
          simp only [Option.some.injEq] at heq
          subst heq
          have harith : m' + 1 + m = (m' + m) + 1 := by omega
          rw [harith]
          by_cases hz : a = 0 ∧ b = 0
          · obtain ⟨ha0, hb0⟩ := hz
            subst ha0
            subst hb0
            simp [wbytesToZero, ha, hb, toPairs, List.takeWhile_cons, flatPairs]
          · have hab : ((a, b) != (0, 0)) = true := by
              simp only [bne_iff_ne, Ne, Prod.mk.injEq]
              exact fun hcontra => hz hcontra
            have hne2 : ¬((0, 0) = (a, b)) := by
              intro hcontra
              injection hcontra with h1 h2
              exact hz ⟨h1.symm, h2.symm⟩
            have hrec := ih (addr + 2) bs hps m
            by_cases hmem : (0, 0) ∈ toPairs bs
            · have hmem0 : (0 : Nat × Nat) ∈ toPairs bs := by simpa using hmem
              simp [wbytesToZero, ha, hb, hz, toPairs, hrec, hmem0,
                List.takeWhile_cons, hab, flatPairs, hne2]
            · have hmem0 : (0 : Nat × Nat) ∉ toPairs bs := by simpa using hmem
              have hne0 : ¬((0 : Nat × Nat) = (a, b)) := by simpa using hne2
              have harith2 : addr + 2 + 2 * m' = addr + 2 * (m' + 1) := by ring
              simp [wbytesToZero, ha, hb, hz, toPairs, hrec, hmem0, hne0, harith2]

theorem read_wstring_eq_pairs_aux (mem : Nat → Option Nat) :
    ∀ fuel addr, read_wstring mem addr fuel = read_wstring_pairs mem addr fuel := by
  intro fuel
  induction fuel with
  | zero => intro addr; rfl
  | succ n ih =>
    intro addr
    have hrp : readPairs mem addr 128 = Option.map toPairs (readMem mem addr 256) := by
      have h := readPairs_eq_readMem mem 128 addr
      norm_num at h
      exact h
    cases hrm : readMem mem addr 256 with
    | none =>
      rw [hrm] at hrp
      simp only [Option.map_none'] at hrp
      simp only [read_wstring, read_wstring_pairs, hrm, hrp]
    | some c =>
      rw [hrm] at hrp
      simp only [Option.map_some'] at hrp
      have hlen : c.length = 2 * 128 := by
        have h := readMem_length mem 256 addr c hrm
        omega
      have hflat := flatPairs_toPairs 128 c hlen
      by_cases hmem : (0, 0) ∈ toPairs c
      · simp only [read_wstring, read_wstring_pairs, hrm, hrp]
        rw [if_pos hmem, if_pos hmem]
      · simp only [read_wstring, read_wstring_pairs, hrm, hrp]
        rw [if_neg hmem, if_neg hmem, ih (addr + 256)]
        cases hr : read_wstring_pairs mem (addr + 256) n with
        | ok rest => simp [hflat]
        | readError => rfl
        | fuelOut => rfl

theorem read_wstring_to_zero_aux (mem : Nat → Option Nat) :
    ∀ fuel addr k, k < fuel →
      (∀ i, i < 256 * (k + 1) → (mem (addr + i)).isSome) →
      (∃ j, 128 * k ≤ j ∧ j < 128 * (k + 1) ∧
          mem (addr + 2 * j) = some 0 ∧ mem (addr + 2 * j + 1) = some 0) →
      read_wstring mem addr fuel = RdRes.ok (wbytesToZero mem addr (128 * fuel)) := by
  intro fuel
  induction fuel with
  | zero => intro addr k hk _ _; omega
  | succ n ih =>
    intro addr k hk hm hz
    have hm256 : ∀ i, i < 256 → (mem (addr + i)).isSome := by
      intro i hi
      exact hm i (by omega)
    obtain ⟨c, hc⟩ := readMem_some_of_mapped mem 256 addr hm256
    have hc2 : readMem mem addr (2 * 128) = some c := by norm_num; exact hc
    have harith : 128 * (n + 1) = 128 + 128 * n := by ring
    have hbtz := wbytesToZero_chunk mem 128 addr c hc2 (128 * n)
    have ha5 : addr + 2 * 128 = addr + 256 := by norm_num
    rw [ha5] at hbtz
    by_cases h0 : (0, 0) ∈ toPairs c
    · simp only [read_wstring, hc]
      rw [if_pos h0, harith, hbtz, if_pos h0]
    · have hk0 : k ≠ 0 := by
        intro hke
        subst hke
        obtain ⟨j, _, hj2, hza, hzb⟩ := hz
        exact h0 (zero_pair_in_chunk mem 128 addr c hc2 j (by omega) hza hzb)
      obtain ⟨k1, rfl⟩ : ∃ k1, k = k1 + 1 := ⟨k - 1, by omega⟩
      have hm2 : ∀ i, i < 256 * (k1 + 1) → (mem (addr + 256 + i)).isSome := by
        intro i hi
        have ha2 : addr + 256 + i = addr + (256 + i) := by omega
        rw [ha2]
        exact hm (256 + i) (by omega)
      have hz2 : ∃ j, 128 * k1 ≤ j ∧ j < 128 * (k1 + 1) ∧
          mem (addr + 256 + 2 * j) = some 0 ∧
          mem (addr + 256 + 2 * j + 1) = some 0 := by
        obtain ⟨j, hj1, hj2, hza, hzb⟩ := hz
        refine ⟨j - 128, by omega, by omega, ?_, ?_⟩
        · have ha3 : addr + 256 + 2 * (j - 128) = addr + 2 * j := by omega
          rw [ha3]
          exact hza
        · have ha4 : addr + 256 + 2 * (j - 128) + 1 = addr + 2 * j + 1 := by omega
          rw [ha4]
          exact hzb
      have hrec := ih (addr + 256) k1 (by omega) hm2 hz2
      simp only [read_wstring, hc]
      rw [if_neg h0, hrec, harith, hbtz, if_neg h0]

/-- Claim C8: the source's read_wstring — which appends raw bytes for chunks
without a terminator but two-byte pairs for the terminating chunk — is
extensionally equal to the reference `read_wstring_pairs` that chunks
consistently in UTF-16LE pairs (every chunk is 0x100 bytes, an even length,
so the pairing never splits a character across chunks); and whenever a
pair-aligned zero pair is mapped (with the chunks up to it), both return
exactly the bytes before the first pair-aligned zero pair — the byte
sequence whose UTF-16LE decoding the method returns. -/
theorem read_wstring_pair_consistent :
    (∀ (mem : Nat → Option Nat) (addr fuel : Nat),
        read_wstring mem addr fuel = read_wstring_pairs mem addr fuel) ∧
      (∀ (mem : Nat → Option Nat) (fuel addr k : Nat), k < fuel →
        (∀ i, i < 256 * (k + 1) → (mem (addr + i)).isSome) →
        (∃ j, 128 * k ≤ j ∧ j < 128 * (k + 1) ∧
            mem (addr + 2 * j) = some 0 ∧ mem (addr + 2 * j + 1) = some 0) →
        read_wstring mem addr fuel = RdRes.ok (wbytesToZero mem addr (128 * fuel))) :=
  ⟨fun mem addr fuel => read_wstring_eq_pairs_aux mem fuel addr,
   fun mem fuel addr k hk hm hz => read_wstring_to_zero_aux mem fuel addr k hk hm hz⟩

set_option maxRecDepth 8000 in
/-- Witness for claim C8, on a fully mapped first chunk holding the UTF-16LE
"h" then a zero pair. -/
theorem read_wstring_pair_consistent_witness :
    read_wstring c8okMem 0 1 = RdRes.ok [104, 0] :=
  (read_wstring_pair_consistent.2 c8okMem 1 0 0 (by decide) (by decide)
    ⟨1, by decide, by decide, by decide, by decide⟩).trans (by decide)

/-- Witness for claim C10: one 64-bit process with pid 5, a thread owned by
the exited pid 9. -/
theorem dead_owner_cached_none_ops_fail_witness :
    ownerProp none [⟨5, 64⟩] 9 = (none, some none) ∧
      ownerProp (some none) [⟨5, 64⟩] 9 = (none, some none) ∧
      thread_context none 64 = Except.error PErr.attributeError ∧
      thread_set_context none 64 = Except.error PErr.attributeError ∧
      thread_start_address none 64 = Except.error PErr.attributeError :=
  dead_owner_cached_none_ops_fail [⟨5, 64⟩] 9 64 (by decide)

end WinObject
